import Mathlib

/-!
Verification of the celo-sdk-py specification against the source.

Part 1 embeds the sorted-linked-list positional-update utilities of
`celo_sdk/utils/utils.py` (`upsert`, `linked_list_change`,
`linked_list_changes`).

Part 2 embeds the transaction pipeline of `sdk/wallet.py`
(`Wallet.construct_transaction`, `Wallet.send_transaction`), with the
node modelled as an explicit environment and submission oracle.
-/

/-- One element of the sorted sequence: a dict `{address, value}` in the
Python source. `address` is the key, `value` the weight. -/
structure Entry where
  address : String
  value : Int
deriving DecidableEq, Repr

/-- The zero sentinel address used by `linked_list_change`. -/
def NULL_ADDRESS : String := "0x0000000000000000000000000000000000000000"

/-- Embedding of `upsert(sorted_list, change)` from
`celo_sdk/utils/utils.py` lines 1-24.  The Python mutates `sorted_list`
and returns the new index (or raises a bare `Exception('')` when the
change's address is absent); here the updated list is returned together
with the index, and the raised exception is the `.error` branch. -/
def upsert (sorted_list : List Entry) (change : Entry) :
    Except String (List Entry × Nat) :=
  match sorted_list.findIdx? (fun el => el.address == change.address) with
  | none => .error ""
  | some old_idx =>
    let remaining := sorted_list.eraseIdx old_idx
    match remaining.findIdx? (fun el => decide (el.value < change.value)) with
    | none => .ok (remaining ++ [change], (remaining ++ [change]).length - 1)
    | some new_idx => .ok (remaining.insertIdx new_idx change, new_idx)

/-- The `{lesser, greater}` pair returned by `linked_list_change`. -/
structure Neighbors where
  lesser : String
  greater : String
deriving DecidableEq, Repr

/-- Embedding of `linked_list_change(sorted_list, change)` from
`celo_sdk/utils/utils.py` lines 26-31: run `upsert`, then read the
addresses of the entries on either side of the returned index, with the
zero address as sentinel at the head and at the tail. -/
def linked_list_change (sorted_list : List Entry) (change : Entry) :
    Except String (List Entry × Neighbors) :=
  match upsert sorted_list change with
  | .error e => .error e
  | .ok (lst, idx) =>
    let greater := if idx == 0 then NULL_ADDRESS
      else ((lst[idx - 1]?).map Entry.address).getD NULL_ADDRESS
    let lesser := if idx == lst.length - 1 then NULL_ADDRESS
      else ((lst[idx + 1]?).map Entry.address).getD NULL_ADDRESS
    .ok (lst, ⟨lesser, greater⟩)

/-- The accumulated result of `linked_list_changes`: the Python function
returns `{'lessers': ..., 'greaters': ..., 'sorted_list': ...}`. -/
structure ChangesResult where
  lessers : List String
  greaters : List String
  sorted_list : List Entry
deriving DecidableEq, Repr

/-- Embedding of `linked_list_changes(sorted_list, change_list)` from
`celo_sdk/utils/utils.py` lines 33-42: apply `linked_list_change` for
each change in order against the same (threaded) sequence, accumulating
the lesser and greater addresses in order. -/
def linked_list_changes (sorted_list : List Entry) :
    List Entry → Except String ChangesResult
  | [] => .ok ⟨[], [], sorted_list⟩
  | c :: cs =>
    match linked_list_change sorted_list c with
    | .error e => .error e
    | .ok (lst, nb) =>
      match linked_list_changes lst cs with
      | .error e => .error e
      | .ok rest =>
        .ok ⟨nb.lesser :: rest.lessers, nb.greater :: rest.greaters,
             rest.sorted_list⟩

/-- State-only sequential application of `linked_list_change`: the
sequence obtained after applying a prefix of the change list, used to
express that `linked_list_changes` computes each pair against the
already-mutated sequence. -/
def applyChanges (sorted_list : List Entry) :
    List Entry → Except String (List Entry)
  | [] => .ok sorted_list
  | c :: cs =>
    match linked_list_change sorted_list c with
    | .error e => .error e
    | .ok (lst, _) => applyChanges lst cs

/-- The §8 example sequence `[(A,7),(B,5),(C,4),(D,3),(E,2),(F,2),(G,1)]`. -/
def exSeq : List Entry :=
  [⟨"A", 7⟩, ⟨"B", 5⟩, ⟨"C", 4⟩, ⟨"D", 3⟩, ⟨"E", 2⟩, ⟨"F", 2⟩, ⟨"G", 1⟩]

/-- Strict descending order by `value`: the §3 `SortedEntry` sequence
invariant. -/
def StrictlyDescending (l : List Entry) : Prop :=
  l.Pairwise fun a b => b.value < a.value

instance (l : List Entry) : Decidable (StrictlyDescending l) :=
  inferInstanceAs (Decidable (l.Pairwise fun a b : Entry => b.value < a.value))

/-- A strictly descending sequence with pairwise-distinct weights, used
as concrete input for the invariant theorems. -/
def wSeq : List Entry :=
  [⟨"A", 7⟩, ⟨"B", 5⟩, ⟨"C", 4⟩, ⟨"D", 3⟩, ⟨"E", 1⟩]

/-- The sequence `wSeq` after `upsert` of the change `(C, 2)`. -/
def wRes : List Entry :=
  [⟨"A", 7⟩, ⟨"B", 5⟩, ⟨"D", 3⟩, ⟨"C", 2⟩, ⟨"E", 1⟩]

/-- The result of the §8 batch scenario: changes `[(C,2), (B,0)]`
applied to `exSeq`. -/
def batchRes : ChangesResult :=
  ⟨["G", NULL_ADDRESS], ["F", "G"],
   [⟨"A", 7⟩, ⟨"D", 3⟩, ⟨"E", 2⟩, ⟨"F", 2⟩, ⟨"C", 2⟩, ⟨"G", 1⟩,
    ⟨"B", 0⟩]⟩

/-!
Part 2: the `Wallet` of `sdk/wallet.py`.

The wallet's mutable configuration fields are a record; the node's
responses (nonce, network gas price, submission outcome) are an explicit
environment.  Optional Python fields (initialised to `None`) are
`Option`; the code's truthiness tests `if self._fee_currency:` /
`if gas:` are embedded by `truthyStr` / `truthyInt` (in Python `None`,
`''` and `0` are falsy).
-/

/-- The configuration fields of a `Wallet` instance
(`sdk/wallet.py` lines 26-37). -/
structure WalletState where
  fee_currency : Option String
  gateway_fee_recipient : Option String
  gateway_fee : Option Int
  gas_price : Option Int
  gas : Int
  gas_increase_step : Int
  active_address : String
deriving DecidableEq, Repr

/-- A freshly constructed wallet: every optional field `None`,
`self._gas = 10000000`, `self.gas_increase_step = 1000000`. -/
def initWallet (addr : String) : WalletState :=
  { fee_currency := none, gateway_fee_recipient := none,
    gateway_fee := none, gas_price := none,
    gas := 10000000, gas_increase_step := 1000000,
    active_address := addr }

/-- Python truthiness of an optional string (`None` and `''` are falsy). -/
def truthyStr : Option String → Bool
  | none => false
  | some s => s != ""

/-- Python truthiness of an optional integer (`None` and `0` are falsy). -/
def truthyInt : Option Int → Bool
  | none => false
  | some n => n != 0

/-- The node responses read during construction: the fresh nonce
(`getTransactionCount`) and the gas-price-minimum oracle value. -/
structure NodeEnv where
  nonce : Int
  network_gas_price : Int
deriving DecidableEq, Repr

/-- The `base_rows` transaction record assembled by
`construct_transaction`; optional fields are present only when added. -/
structure TxRecord where
  gasPrice : Int
  nonce : Int
  gas : Int
  from_address : String
  feeCurrency : String
  gatewayFeeRecipient : Option String := none
  gatewayFee : Option Int := none
deriving DecidableEq, Repr

/-- Errors surfaced by the wallet.  `constructionError m` stands for the
generic `Exception("Error while construct transaction: " + m)` raised by
the bare `except:` of `construct_transaction`; `valueErrorRaised` and
`exceptionRaised` appear in `SendResult` below for the two raise sites
of `send_transaction`. -/
inductive WalletError where
  | constructionError (msg : String)
deriving DecidableEq, Repr

/-- Embedding of `Wallet.construct_transaction(contract_method, gas)`
(`sdk/wallet.py` lines 113-145).  The nonce is fetched first; if
`self._fee_currency` is falsy a `ValueError` is raised (and converted to
a generic exception by the bare `except:`); otherwise `base_rows` is
assembled with the truthiness-resolved gas and gas price, and
`gatewayFeeRecipient` / `gatewayFee` are each added only when the
corresponding wallet field is truthy.  `contract_method.buildTransaction`
merges external call data and is not modelled; the result is the
`base_rows` record. -/
def construct_transaction (w : WalletState) (env : NodeEnv)
    (gas : Option Int) : Except WalletError TxRecord :=
  if truthyStr w.fee_currency then
    let gas := if truthyInt gas then gas.getD 0 else w.gas
    let gas_price := if truthyInt w.gas_price then w.gas_price.getD 0
      else env.network_gas_price
    let base_rows : TxRecord :=
      { gasPrice := gas_price, nonce := env.nonce, gas := gas,
        from_address := w.active_address,
        feeCurrency := w.fee_currency.getD "" }
    let base_rows := if truthyStr w.gateway_fee_recipient then
        { base_rows with gatewayFeeRecipient := w.gateway_fee_recipient }
      else base_rows
    let base_rows := if truthyInt w.gateway_fee then
        { base_rows with gatewayFee := w.gateway_fee }
      else base_rows
    .ok base_rows
  else
    .error (.constructionError
      "Can't construct transaction without fee currency, set fee currency please")

/-- What the node does with one submitted (signed) transaction: return a
hash, or raise a `ValueError` whose parsed dict carries `message`. -/
inductive SubmitOutcome where
  | hash (h : String)
  | valueError (message : String)
deriving DecidableEq, Repr

/-- The observable outcome of one `send_transaction` call: a Python
return value (`some hash`, or `none` for an implicit `return None`), a
re-raised `ValueError`, a generic `Exception`, or divergence of the
unbounded retry recursion (fuel exhausted). -/
inductive SendResult where
  | returned (h : Option String)
  | valueErrorRaised (message : String)
  | exceptionRaised (msg : String)
  | diverged
deriving DecidableEq, Repr

/-- Embedding of `Wallet.send_transaction(contract_method, gas)`
(`sdk/wallet.py` lines 182-208).  `submit` is the node's response to the
signed transaction (signing itself always succeeds and is not modelled
further).  On a `ValueError` whose message is `'intrinsic gas too low'`
the code recomputes `gas` (truthiness: `gas + step if gas else
self._gas + step`) and recurses; the recursive call's value is
discarded, so the handler falls through and returns `None`.  An
exception raised by the recursive call propagates out of the handler.
The recursion has no bound in the source; `fuel` makes it total, with
`diverged` marking exhaustion. -/
def send_transaction (w : WalletState) (env : NodeEnv)
    (submit : TxRecord → SubmitOutcome) :
    Option Int → Nat → SendResult
  | _, 0 => .diverged
  | gas, fuel + 1 =>
    match construct_transaction w env gas with
    | .error _ => .exceptionRaised "Error while send transaction"
    | .ok tx =>
      match submit tx with
      | .hash h => .returned (some h)
      | .valueError message =>
        if message == "intrinsic gas too low" then
          let gas_retry := if truthyInt gas then
              gas.getD 0 + w.gas_increase_step
            else w.gas + w.gas_increase_step
          match send_transaction w env submit (some gas_retry) fuel with
          | .returned _ => .returned none
          | other => other
        else .valueErrorRaised message

/-- A wallet with a fee currency configured, as the concrete scenarios
below require. -/
def wEx : WalletState :=
  { initWallet "0xSender" with fee_currency := some "0xFeeCurrency" }

/-- Concrete node responses for the scenarios. -/
def envEx : NodeEnv := ⟨7, 5⟩

/-- A node that reports `'intrinsic gas too low'` for the default gas
and for the once-incremented gas, and accepts the twice-incremented
gas. -/
def submitTwice : TxRecord → SubmitOutcome := fun tx =>
  if tx.gas ≥ 12000000 then .hash "0xdeadbeef"
  else .valueError "intrinsic gas too low"

/-- A node that reports `'intrinsic gas too low'` for the default gas
and accepts the once-incremented gas. -/
def submitOnce : TxRecord → SubmitOutcome := fun tx =>
  if tx.gas ≥ 11000000 then .hash "0xabc123"
  else .valueError "intrinsic gas too low"

/-- A wallet with fee currency set and a gateway fee recipient but no
gateway fee: exactly one of the gateway-fee pair configured. -/
def wGwHalf : WalletState :=
  { wEx with gateway_fee_recipient := some "0xRecipient" }

/-- A wallet with fee currency set, a gateway fee recipient, and a
gateway fee explicitly configured as the integer 0. -/
def wGwZero : WalletState :=
  { wEx with gateway_fee_recipient := some "0xRecipient",
             gateway_fee := some 0 }

/-- C4: whenever the fee currency is unset, `construct_transaction`
fails (with the missing-fee-currency error, surfaced through the bare
`except:` as a construction exception) and builds no transaction
record, regardless of every other wallet field, the node environment
and the gas argument. -/
theorem construct_transaction_missing_fee_currency
    (w : WalletState) (env : NodeEnv) (gas : Option Int)
    (h : w.fee_currency = none) :
    construct_transaction w env gas =
      .error (.constructionError
        "Can't construct transaction without fee currency, set fee currency please") := by
  simp [construct_transaction, h, truthyStr]

theorem construct_transaction_missing_fee_currency_witness :
    (initWallet "0xSender").fee_currency = none ∧
    construct_transaction (initWallet "0xSender") envEx none =
      .error (.constructionError
        "Can't construct transaction without fee currency, set fee currency please") :=
  ⟨rfl, construct_transaction_missing_fee_currency (initWallet "0xSender")
    envEx none rfl⟩

/-- C10: a gateway fee configured as the integer 0 is falsy for the
`if self._gateway_fee:` test, so the built transaction record omits the
`gatewayFee` field, whatever the recipient setting. -/
theorem construct_transaction_omits_zero_gateway_fee
    (w : WalletState) (env : NodeEnv) (gas : Option Int)
    (hfc : truthyStr w.fee_currency = true)
    (h0 : w.gateway_fee = some 0) :
    ∃ tx, construct_transaction w env gas = .ok tx ∧ tx.gatewayFee = none := by
  have hz : truthyInt w.gateway_fee = false := by simp [h0, truthyInt]
  simp only [construct_transaction, hfc, if_true, hz, Bool.false_eq_true,
    if_false]
  by_cases hr : truthyStr w.gateway_fee_recipient <;> simp [hr]

theorem construct_transaction_omits_zero_gateway_fee_witness :
    truthyStr wGwZero.fee_currency = true ∧
    wGwZero.gateway_fee = some 0 ∧
    ∃ tx, construct_transaction wGwZero envEx none = .ok tx ∧
      tx.gatewayFee = none :=
  ⟨by decide, rfl,
   construct_transaction_omits_zero_gateway_fee wGwZero envEx none
     (by decide) rfl⟩

/-- C3 counterexample: with exactly one of the gateway-fee pair
configured (a recipient but no fee), `construct_transaction` does not
fail at all — there is no incomplete-gateway-fee error anywhere in the
code — and it silently includes only the configured half. -/
theorem construct_transaction_half_gateway_no_error :
    construct_transaction wGwHalf envEx none =
      .ok { gasPrice := 5, nonce := 7, gas := 10000000,
            from_address := "0xSender", feeCurrency := "0xFeeCurrency",
            gatewayFeeRecipient := some "0xRecipient",
            gatewayFee := none } := by
  rfl

/-- C3 (amended): `construct_transaction` never raises an
incomplete-gateway-fee error; whenever the fee currency is set it
succeeds and includes `gatewayFeeRecipient` iff the recipient is truthy
and `gatewayFee` iff the fee is truthy, each independently of the
other. -/
theorem construct_transaction_gateway_fields_independent
    (w : WalletState) (env : NodeEnv) (gas : Option Int)
    (hfc : truthyStr w.fee_currency = true) :
    ∃ tx, construct_transaction w env gas = .ok tx ∧
      tx.gatewayFeeRecipient =
        (if truthyStr w.gateway_fee_recipient then w.gateway_fee_recipient
         else none) ∧
      tx.gatewayFee =
        (if truthyInt w.gateway_fee then w.gateway_fee else none) := by
  simp only [construct_transaction, hfc, if_true]
  by_cases hr : truthyStr w.gateway_fee_recipient <;>
    by_cases hg : truthyInt w.gateway_fee <;> simp [hr, hg]

theorem construct_transaction_gateway_fields_independent_witness :
    truthyStr wGwHalf.fee_currency = true ∧
    ∃ tx, construct_transaction wGwHalf envEx none = .ok tx ∧
      tx.gatewayFeeRecipient =
        (if truthyStr wGwHalf.gateway_fee_recipient then
           wGwHalf.gateway_fee_recipient else none) ∧
      tx.gatewayFee =
        (if truthyInt wGwHalf.gateway_fee then wGwHalf.gateway_fee
         else none) :=
  ⟨by decide,
   construct_transaction_gateway_fields_independent wGwHalf envEx none
     (by decide)⟩

/-- C2 (code evaluated at the failing input): when the first submission
fails with `'intrinsic gas too low'` and the retry at
`gas + gas_increase_step` succeeds with a hash, `send_transaction`
nevertheless returns `None` — the recursive call's value is discarded —
instead of the retried submission's hash promised by its docstring. -/
theorem send_transaction_retry_success_returns_none :
    (construct_transaction wEx envEx none).map submitOnce =
      .ok (.valueError "intrinsic gas too low") ∧
    (construct_transaction wEx envEx (some 11000000)).map submitOnce =
      .ok (.hash "0xabc123") ∧
    send_transaction wEx envEx submitOnce none 10 = .returned none ∧
    send_transaction wEx envEx submitOnce none 10 ≠
      .returned (some "0xabc123") :=
  ⟨rfl, rfl, rfl, by decide⟩

/-- C1 counterexample: the first attempt and the retry both fail with
`'intrinsic gas too low'`, yet `send_transaction` propagates no error at
all — a third attempt at `gas + 2 * gas_increase_step` is made and
accepted, and the call returns normally. -/
theorem send_transaction_second_underpriced_no_propagation :
    (construct_transaction wEx envEx none).map submitTwice =
      .ok (.valueError "intrinsic gas too low") ∧
    (construct_transaction wEx envEx (some 11000000)).map submitTwice =
      .ok (.valueError "intrinsic gas too low") ∧
    send_transaction wEx envEx submitTwice none 10 = .returned none :=
  ⟨rfl, rfl, rfl⟩

/-- One unfolding of `send_transaction` at an underpriced-gas failure:
the attempt's result is discarded and replaced by the recursive call's
result, with `returned` values collapsed to `returned none`. -/
theorem send_transaction_underpriced_step
    (w : WalletState) (env : NodeEnv) (submit : TxRecord → SubmitOutcome)
    (gas : Option Int) (fuel : Nat) (tx : TxRecord)
    (hc : construct_transaction w env gas = .ok tx)
    (hs : submit tx = .valueError "intrinsic gas too low") :
    send_transaction w env submit gas (fuel + 1) =
      match send_transaction w env submit
          (some (if truthyInt gas then gas.getD 0 + w.gas_increase_step
                 else w.gas + w.gas_increase_step)) fuel with
      | .returned _ => .returned none
      | other => other := by
  simp only [send_transaction, hc, hs, beq_self_eq_true, if_true]

/-- C1 (amended): on a first underpriced-gas failure `send_transaction`
rebuilds with `gas + gas_increase_step` and retries; if the retry fails
with the same underpriced-gas error, no `SubmissionError` propagates —
instead a further retry is made with the gas increased by another
increment step, the recursion continuing without bound. -/
theorem send_transaction_retries_unbounded
    (w : WalletState) (env : NodeEnv) (submit : TxRecord → SubmitOutcome)
    (fuel : Nat)
    (h1 : (construct_transaction w env none).map submit =
      .ok (.valueError "intrinsic gas too low"))
    (h2 : (construct_transaction w env
        (some (w.gas + w.gas_increase_step))).map submit =
      .ok (.valueError "intrinsic gas too low"))
    (hg : w.gas + w.gas_increase_step ≠ 0) :
    send_transaction w env submit none (fuel + 3) =
      match send_transaction w env submit
          (some (w.gas + w.gas_increase_step + w.gas_increase_step))
          (fuel + 1) with
      | .returned _ => .returned none
      | other => other := by
  obtain ⟨tx1, hc1, hs1⟩ : ∃ tx, construct_transaction w env none = .ok tx ∧
      submit tx = .valueError "intrinsic gas too low" := by
    cases hcc : construct_transaction w env none with
    | error e => rw [hcc] at h1; simp [Except.map] at h1
    | ok tx =>
      rw [hcc] at h1; simp [Except.map] at h1; exact ⟨tx, rfl, h1⟩
  obtain ⟨tx2, hc2, hs2⟩ : ∃ tx, construct_transaction w env
      (some (w.gas + w.gas_increase_step)) = .ok tx ∧
      submit tx = .valueError "intrinsic gas too low" := by
    cases hcc : construct_transaction w env
        (some (w.gas + w.gas_increase_step)) with
    | error e => rw [hcc] at h2; simp [Except.map] at h2
    | ok tx =>
      rw [hcc] at h2; simp [Except.map] at h2; exact ⟨tx, rfl, h2⟩
  have hg' : (w.gas + w.gas_increase_step != 0) = true := by simpa using hg
  show send_transaction w env submit none (fuel + 1 + 1 + 1) = _
  rw [send_transaction_underpriced_step w env submit none (fuel + 1 + 1)
    tx1 hc1 hs1]
  simp only [truthyInt, Bool.false_eq_true, if_false]
  rw [send_transaction_underpriced_step w env submit
    (some (w.gas + w.gas_increase_step)) (fuel + 1) tx2 hc2 hs2]
  simp only [truthyInt, hg', if_true, Option.getD_some]
  generalize send_transaction w env submit
    (some (w.gas + w.gas_increase_step + w.gas_increase_step))
    (fuel + 1) = r
  cases r <;> rfl

theorem send_transaction_retries_unbounded_witness :
    ((construct_transaction wEx envEx none).map submitTwice =
      .ok (.valueError "intrinsic gas too low")) ∧
    ((construct_transaction wEx envEx
        (some (wEx.gas + wEx.gas_increase_step))).map submitTwice =
      .ok (.valueError "intrinsic gas too low")) ∧
    wEx.gas + wEx.gas_increase_step ≠ 0 ∧
    (send_transaction wEx envEx submitTwice none (0 + 3) =
      match send_transaction wEx envEx submitTwice
          (some (wEx.gas + wEx.gas_increase_step + wEx.gas_increase_step))
          (0 + 1) with
      | .returned _ => .returned none
      | other => other) :=
  ⟨rfl, rfl, by decide,
   send_transaction_retries_unbounded wEx envEx submitTwice 0 rfl rfl
     (by decide)⟩

/-- C8: `upsert` raises (the bare `Exception('')`) exactly when no
entry of the input sequence has the change's address; when some entry
has it, no error is raised and the remove-and-reinsert computation
yields a result. -/
theorem upsert_error_iff_key_absent (l : List Entry) (c : Entry) :
    (upsert l c = .error "" ↔ ∀ e ∈ l, e.address ≠ c.address) ∧
    ((∃ e ∈ l, e.address = c.address) ↔ ∃ out, upsert l c = .ok out) := by
  have main : upsert l c = .error "" ↔ ∀ e ∈ l, e.address ≠ c.address := by
    unfold upsert
    cases hf : l.findIdx? (fun el => el.address == c.address) with
    | none =>
      simp only [true_iff]
      intro e he
      have := List.findIdx?_eq_none_iff.mp hf e he
      simpa using this
    | some old_idx =>
      constructor
      · intro h
        exfalso
        cases h2 : (l.eraseIdx old_idx).findIdx?
            (fun el => decide (el.value < c.value)) with
        | none => simp [h2] at h
        | some j => simp [h2] at h
      · intro hall
        exfalso
        obtain ⟨hlt, hp, -⟩ := List.findIdx?_eq_some_iff_getElem.mp hf
        exact hall (l.get ⟨old_idx, hlt⟩) (l.getElem_mem hlt)
          (by simpa using hp)
  refine ⟨main, ?_⟩
  constructor
  · intro ⟨e, he, ha⟩
    cases hu : upsert l c with
    | ok out => exact ⟨out, rfl⟩
    | error msg =>
      have hmsg : msg = "" := by
        unfold upsert at hu
        cases hf : l.findIdx? (fun el => el.address == c.address) with
        | none => rw [hf] at hu; simpa using hu.symm
        | some old_idx =>
          rw [hf] at hu
          cases h2 : (l.eraseIdx old_idx).findIdx?
              (fun el => decide (el.value < c.value)) with
          | none => simp [h2] at hu
          | some j => simp [h2] at hu
      subst hmsg
      exact absurd (main.mp hu e he) (by simp [ha])
  · intro ⟨out, hout⟩
    by_contra hnone
    push_neg at hnone
    have : ∀ e ∈ l, e.address ≠ c.address := fun e he => hnone e he
    rw [← main] at this
    rw [hout] at this
    exact absurd this (by simp)

/-- C5: for the §8 sequence and the change `(C, 2)`, `linked_list_change`
returns `lesser = G` and `greater = F`: the first scan position with
`value < 2` is after the already-present weight-2 entries `E` and `F`,
so the repositioned entry lands between `F` and `G`. -/
theorem linked_list_change_ties_example :
    linked_list_change exSeq ⟨"C", 2⟩ =
      .ok ([⟨"A", 7⟩, ⟨"B", 5⟩, ⟨"D", 3⟩, ⟨"E", 2⟩, ⟨"F", 2⟩, ⟨"C", 2⟩,
            ⟨"G", 1⟩], ⟨"G", "F"⟩) := rfl

/-- Inserting `c` at position `j` of a pairwise-related list keeps the
relation when every element before the position relates to `c` and `c`
relates to every element from the position on. -/
theorem pairwise_insertIdx_of {α : Type} {R : α → α → Prop} (c : α) :
    ∀ (j : Nat) (l : List α), j ≤ l.length → l.Pairwise R →
      (∀ e ∈ l.take j, R e c) → (∀ e ∈ l.drop j, R c e) →
      (l.insertIdx j c).Pairwise R
  | 0, l, _, hl, _, hafter => by
    rw [List.insertIdx_zero]
    exact List.pairwise_cons.mpr ⟨by simpa using hafter, hl⟩
  | j + 1, [], hj, _, _, _ => absurd hj (by simp)
  | j + 1, a :: l, hj, hl, hbefore, hafter => by
    rw [List.insertIdx_succ_cons]
    have hj' : j ≤ l.length := by simp at hj; omega
    obtain ⟨ha, hl'⟩ := List.pairwise_cons.mp hl
    refine List.pairwise_cons.mpr ⟨?_, ?_⟩
    · intro b hb
      rcases (List.mem_insertIdx hj').mp hb with rfl | hbl
      · exact hbefore a (by simp)
      · exact ha b hbl
    · exact pairwise_insertIdx_of c j l hj' hl'
        (fun e he => hbefore e (by simp [he]))
        (fun e he => hafter e (by simpa using he))

/-- An element different from the erased one survives `eraseIdx`. -/
theorem mem_eraseIdx_of_ne {α : Type} :
    ∀ (l : List α) (i : Nat) (hi : i < l.length) (e : α),
      e ∈ l → e ≠ l.get ⟨i, hi⟩ → e ∈ l.eraseIdx i
  | a :: l, 0, _, e, he, hne => by
    simp only [List.eraseIdx_zero, List.tail_cons]
    rcases List.mem_cons.mp he with rfl | h
    · exact (hne rfl).elim
    · exact h
  | a :: l, i + 1, hi, e, he, hne => by
    simp only [List.eraseIdx]
    rcases List.mem_cons.mp he with rfl | h
    · exact List.mem_cons_self _ _
    · exact List.mem_cons_of_mem _
        (mem_eraseIdx_of_ne l i (by simpa using hi) e h (by simpa using hne))

/-- C6: for every input sequence in strictly descending weight order and
every successful `upsert` of a change whose weight differs from every
remaining entry's weight, the resulting sequence is again strictly
descending. -/
theorem upsert_preserves_strict_descending
    (l : List Entry) (c : Entry) (res : List Entry) (i : Nat)
    (hsorted : StrictlyDescending l)
    (hdistinct : ∀ e ∈ l.eraseIdx (l.findIdx fun el => el.address == c.address),
      e.value ≠ c.value)
    (hok : upsert l c = .ok (res, i)) :
    StrictlyDescending res := by
  unfold upsert at hok
  cases hf : l.findIdx? (fun el => el.address == c.address) with
  | none => rw [hf] at hok; simp at hok
  | some old_idx =>
    rw [hf] at hok
    obtain ⟨hltl, hfind⟩ := List.findIdx?_eq_some_iff_findIdx_eq.mp hf
    rw [hfind] at hdistinct
    have hremsorted : StrictlyDescending (l.eraseIdx old_idx) :=
      List.Pairwise.eraseIdx old_idx hsorted
    cases hf2 : (l.eraseIdx old_idx).findIdx?
        (fun el => decide (el.value < c.value)) with
    | none =>
      simp only [hf2] at hok
      simp only [Except.ok.injEq, Prod.mk.injEq] at hok
      obtain ⟨h1, h2⟩ := hok
      subst h1
      have hall : ∀ e ∈ l.eraseIdx old_idx, ¬ (e.value < c.value) := by
        intro e he
        have := List.findIdx?_eq_none_iff.mp hf2 e he
        simpa using this
      show List.Pairwise _ _
      rw [List.pairwise_append]
      refine ⟨hremsorted, by simp, ?_⟩
      intro a ha b hb
      simp only [List.mem_singleton] at hb
      subst hb
      have h1 := hall a ha
      have h2 := hdistinct a ha
      omega
    | some j =>
      simp only [hf2] at hok
      simp only [Except.ok.injEq, Prod.mk.injEq] at hok
      obtain ⟨h1, h2⟩ := hok
      subst h1
      obtain ⟨hjlt, hpj, hprev⟩ := List.findIdx?_eq_some_iff_getElem.mp hf2
      have hpj' : (l.eraseIdx old_idx)[j].value < c.value := by simpa using hpj
      show List.Pairwise _ _
      apply pairwise_insertIdx_of c j _ (Nat.le_of_lt hjlt) hremsorted
      · intro e he
        obtain ⟨k, hk, hke⟩ := List.mem_iff_getElem.mp he
        have hkj : k < j := by simp [List.length_take] at hk; omega
        have hkr : k < (l.eraseIdx old_idx).length := by
          simp [List.length_take] at hk; omega
        rw [List.getElem_take] at hke
        have hnotlt : ¬ ((l.eraseIdx old_idx)[k].value < c.value) := by
          have := hprev k hkj
          simpa using this
        have hne : (l.eraseIdx old_idx)[k].value ≠ c.value :=
          hdistinct _ ((l.eraseIdx old_idx).getElem_mem hkr)
        rw [← hke]
        omega
      · intro e he
        obtain ⟨k, hk, hke⟩ := List.mem_iff_getElem.mp he
        have hjk : j + k < (l.eraseIdx old_idx).length := by
          simp [List.length_drop] at hk; omega
        rw [List.getElem_drop] at hke
        rw [← hke]
        rcases Nat.eq_zero_or_pos k with rfl | hkpos
        · simpa using hpj'
        · have hlt2 : (l.eraseIdx old_idx)[j + k].value <
              (l.eraseIdx old_idx)[j].value :=
            (List.pairwise_iff_getElem.mp hremsorted) j (j + k) hjlt hjk
              (by omega)
          omega

theorem upsert_preserves_strict_descending_witness :
    StrictlyDescending wSeq ∧
    (∀ e ∈ wSeq.eraseIdx
        (wSeq.findIdx fun el => el.address == (Entry.mk "C" 2).address),
      e.value ≠ (Entry.mk "C" 2).value) ∧
    StrictlyDescending wRes :=
  ⟨by decide, by decide,
   upsert_preserves_strict_descending wSeq ⟨"C", 2⟩ wRes 3
     (by decide) (by decide) rfl⟩

/-- C9: when the sequence contains exactly one entry with the change's
key, `upsert` keeps the length, keeps the set of keys, and places the
change itself at the returned index. -/
theorem upsert_same_key_preserves_shape
    (l : List Entry) (c : Entry) (res : List Entry) (i : Nat)
    (hone : l.countP (fun e => e.address == c.address) = 1)
    (hok : upsert l c = .ok (res, i)) :
    res.length = l.length ∧
    (∀ a : String, (∃ e ∈ res, e.address = a) ↔ (∃ e ∈ l, e.address = a)) ∧
    res[i]? = some c := by
  unfold upsert at hok
  cases hf : l.findIdx? (fun el => el.address == c.address) with
  | none => rw [hf] at hok; simp at hok
  | some old_idx =>
    rw [hf] at hok
    obtain ⟨hlt, hp, -⟩ := List.findIdx?_eq_some_iff_getElem.mp hf
    have haddr : (l[old_idx]).address = c.address := by simpa using hp
    have hlen : (l.eraseIdx old_idx).length = l.length - 1 :=
      List.length_eraseIdx_of_lt hlt
    have hkeys : ∀ (other : List Entry),
        (∀ e, e ∈ other ↔ e = c ∨ e ∈ l.eraseIdx old_idx) →
        ∀ a : String,
          (∃ e ∈ other, e.address = a) ↔ (∃ e ∈ l, e.address = a) := by
      intro other hmem a
      constructor
      · rintro ⟨e, he, rfl⟩
        rcases (hmem e).mp he with rfl | hrem
        · exact ⟨l[old_idx], l.getElem_mem hlt, haddr⟩
        · exact ⟨e, List.mem_of_mem_eraseIdx hrem, rfl⟩
      · rintro ⟨e, he, rfl⟩
        by_cases heq : e = l.get ⟨old_idx, hlt⟩
        · have hea : e.address = c.address := by
            rw [heq]; simpa using haddr
          exact ⟨c, (hmem c).mpr (Or.inl rfl), hea.symm⟩
        · exact ⟨e, (hmem e).mpr
            (Or.inr (mem_eraseIdx_of_ne l old_idx hlt e he heq)), rfl⟩
    cases hf2 : (l.eraseIdx old_idx).findIdx?
        (fun el => decide (el.value < c.value)) with
    | none =>
      simp only [hf2] at hok
      simp only [Except.ok.injEq, Prod.mk.injEq] at hok
      obtain ⟨h1, h2⟩ := hok
      subst h1
      subst h2
      refine ⟨?_, hkeys _ (fun e => by
        simp [List.mem_append, or_comm]), ?_⟩
      · simp only [List.length_append, List.length_singleton, hlen]
        omega
      · have hidx : (l.eraseIdx old_idx ++ [c]).length - 1 =
            (l.eraseIdx old_idx).length := by simp
        rw [hidx]
        exact List.getElem?_concat_length _ _
    | some j =>
      simp only [hf2] at hok
      simp only [Except.ok.injEq, Prod.mk.injEq] at hok
      obtain ⟨h1, h2⟩ := hok
      subst h1
      subst h2
      obtain ⟨hjlt, -, -⟩ := List.findIdx?_eq_some_iff_getElem.mp hf2
      have hjle : j ≤ (l.eraseIdx old_idx).length := Nat.le_of_lt hjlt
      refine ⟨?_, hkeys _ (fun e => List.mem_insertIdx hjle), ?_⟩
      · rw [List.length_insertIdx j _ hjle, hlen]
        omega
      · have hjlen : j < ((l.eraseIdx old_idx).insertIdx j c).length := by
          rw [List.length_insertIdx j _ hjle]
          omega
        rw [List.getElem?_eq_getElem hjlen,
          List.getElem_insertIdx_self (l.eraseIdx old_idx) c j hjle]

theorem upsert_same_key_preserves_shape_witness :
    wSeq.countP (fun e => e.address == (Entry.mk "C" 2).address) = 1 ∧
    upsert wSeq ⟨"C", 2⟩ = .ok (wRes, 3) ∧
    wRes.length = wSeq.length ∧
    (∀ a : String,
      (∃ e ∈ wRes, e.address = a) ↔ (∃ e ∈ wSeq, e.address = a)) ∧
    wRes[3]? = some ⟨"C", 2⟩ := by
  have h := upsert_same_key_preserves_shape wSeq ⟨"C", 2⟩ wRes 3
    (by decide) rfl
  exact ⟨by decide, rfl, h.1, h.2.1, h.2.2⟩

/-- C7: `linked_list_changes` applies `linked_list_change` sequentially
against the same threaded sequence: the i-th lesser/greater pair of the
accumulated result is the pair produced by applying change i to the
sequence already mutated by changes 0..i-1, and the pairs appear in
change order. -/
theorem linked_list_changes_sequential
    (cs : List Entry) (lst : List Entry) (res : ChangesResult) (i : Nat)
    (h : linked_list_changes lst cs = .ok res) (hi : i < cs.length) :
    ∃ mid out, applyChanges lst (cs.take i) = .ok mid ∧
      linked_list_change mid (cs.get ⟨i, hi⟩) = .ok out ∧
      res.lessers[i]? = some out.2.lesser ∧
      res.greaters[i]? = some out.2.greater := by
  induction cs generalizing lst res i with
  | nil => exact absurd hi (Nat.not_lt_zero i)
  | cons c cs ih =>
    simp only [linked_list_changes] at h
    cases hc : linked_list_change lst c with
    | error e => simp [hc] at h
    | ok p =>
      obtain ⟨lst1, nb⟩ := p
      simp only [hc] at h
      cases hrest : linked_list_changes lst1 cs with
      | error e => simp [hrest] at h
      | ok rest =>
        simp only [hrest, Except.ok.injEq] at h
        subst h
        cases i with
        | zero =>
          exact ⟨lst, (lst1, nb), by simp [applyChanges], hc, by simp,
            by simp⟩
        | succ ip =>
          have hip : ip < cs.length := by
            simpa using Nat.lt_of_succ_lt_succ hi
          obtain ⟨mid, out, h1, h2, h3, h4⟩ := ih lst1 rest ip hrest hip
          refine ⟨mid, out, ?_, ?_, ?_, ?_⟩
          · simp only [List.take_succ_cons, applyChanges, hc]
            exact h1
          · simpa using h2
          · simpa using h3
          · simpa using h4

theorem linked_list_changes_sequential_witness :
    linked_list_changes exSeq [⟨"C", 2⟩, ⟨"B", 0⟩] = .ok batchRes ∧
    1 < ([⟨"C", 2⟩, ⟨"B", 0⟩] : List Entry).length ∧
    ∃ mid out,
      applyChanges exSeq (([⟨"C", 2⟩, ⟨"B", 0⟩] : List Entry).take 1) =
        .ok mid ∧
      linked_list_change mid
        (([⟨"C", 2⟩, ⟨"B", 0⟩] : List Entry).get ⟨1, by decide⟩) =
        .ok out ∧
      batchRes.lessers[1]? = some out.2.lesser ∧
      batchRes.greaters[1]? = some out.2.greater :=
  ⟨rfl, by decide,
   linked_list_changes_sequential [⟨"C", 2⟩, ⟨"B", 0⟩] exSeq batchRes 1
     rfl (by decide)⟩
